import Mathlib

/-!
Verification of the libra escrow-and-dispute engine (Substrate pallets:
currencies-registry, identities, resolvers, lrp, dispute-resolution).

The pallets are shallowly embedded: each pallet's storage becomes a Lean
structure, each dispatchable or internal function becomes a Lean function
returning `Except` (a `DispatchError` rolls the call back, so only the
`ok` branch carries a new state).  The orml multi-currency ledger is
modelled by a pair of balance maps with `reserve` / `unreserve` /
`transfer` following orml-tokens semantics (`reserve` and `transfer`
fail on insufficient free balance, `unreserve` clamps and is
infallible).  Machine integers are modelled as `Nat`, with explicit
wrapping (`% 2^32`) where the Rust `u32` arithmetic can wrap.
-/

namespace Libra

/-- Account identifiers (`T::AccountId`). -/
abbrev Account := Nat

/-- Content hashes (`T::Hash`). -/
abbrev Hash := Nat

/-- Timestamps (`T::Moment`). -/
abbrev Moment := Nat

/-- `primitives::CurrencyId`: the native currency or a registered one. -/
inductive CurrencyId where
  | Native : CurrencyId
  | Registered : Hash → CurrencyId
deriving DecidableEq, Repr

/-- Pointwise update of a one-argument map. -/
def updFun {α β : Type} [DecidableEq α] (f : α → β) (k : α) (v : β) : α → β :=
  fun x => if x = k then v else f x

@[simp] theorem updFun_same {α β : Type} [DecidableEq α] (f : α → β) (k : α) (v : β) :
    updFun f k v k = v := by simp [updFun]

@[simp] theorem updFun_other {α β : Type} [DecidableEq α] (f : α → β) (k : α) (v : β)
    (x : α) (h : x ≠ k) : updFun f k v x = f x := by simp [updFun, h]

/-- The orml-tokens ledger adapter: free and reserved balances keyed by
`(currency, account)`. -/
structure Ledger where
  free : CurrencyId → Account → Nat
  reserved : CurrencyId → Account → Nat

/-- Update one entry of a balance map. -/
def updBal (f : CurrencyId → Account → Nat) (c : CurrencyId) (a : Account) (v : Nat) :
    CurrencyId → Account → Nat :=
  fun c2 a2 => if c2 = c ∧ a2 = a then v else f c2 a2

@[simp] theorem updBal_same (f : CurrencyId → Account → Nat) (c : CurrencyId) (a : Account)
    (v : Nat) : updBal f c a v c a = v := by simp [updBal]

theorem updBal_other (f : CurrencyId → Account → Nat) (c : CurrencyId) (a : Account)
    (v : Nat) (c2 : CurrencyId) (a2 : Account) (h : ¬(c2 = c ∧ a2 = a)) :
    updBal f c a v c2 a2 = f c2 a2 := by simp [updBal, h]

/-- `MultiReservableCurrency::reserve`: move `amt` from free to reserved,
failing when the free balance is insufficient. -/
def Ledger.reserve (l : Ledger) (c : CurrencyId) (a : Account) (amt : Nat) : Option Ledger :=
  if amt ≤ l.free c a then
    some { free := updBal l.free c a (l.free c a - amt),
           reserved := updBal l.reserved c a (l.reserved c a + amt) }
  else none

/-- `MultiReservableCurrency::unreserve`: move back min(amt, reserved);
infallible, clamping at the reserved amount. -/
def Ledger.unreserve (l : Ledger) (c : CurrencyId) (a : Account) (amt : Nat) : Ledger :=
  let u := min amt (l.reserved c a)
  { free := updBal l.free c a (l.free c a + u),
    reserved := updBal l.reserved c a (l.reserved c a - u) }

/-- `MultiCurrency::transfer`: move `amt` of free balance from `src` to
`dst`, failing when the free balance is insufficient. -/
def Ledger.transfer (l : Ledger) (c : CurrencyId) (src dst : Account) (amt : Nat) :
    Option Ledger :=
  if amt ≤ l.free c src then
    let f1 := updBal l.free c src (l.free c src - amt)
    some { l with free := updBal f1 c dst (f1 c dst + amt) }
  else none

/-! ## Currencies registry (`pallets/currencies-registry/src/lib.rs`) -/

namespace Registry

/-- `CurrencyMetadata` from the currencies-registry pallet. -/
structure CurrencyMetadata where
  name : List Nat
  symbol : List Nat
  decimals : Nat
  issuer : Account
deriving DecidableEq

/-- Storage of the currencies-registry pallet plus the ledger it acts on. -/
structure State where
  ledger : Ledger
  currencies : Hash → Option CurrencyMetadata
  acceptedCurrencies : Account → List Hash

inductive Err where
  | CurrencyExisted | CurrencyNotFound | NotCurrencyIssuer
  | LedgerError
deriving DecidableEq, Repr

/-- Pallet constants of the currencies registry. -/
structure Config where
  bondingAmount : Nat

/-- `create_currency`: hash the metadata, fail `CurrencyExisted` when
present, insert, reserve `BondingAmount` native from the issuer
(failure rolls the call back). `hashMeta` stands for `T::Hashing::hash_of`. -/
def create_currency (cfg : Config) (hashMeta : CurrencyMetadata → Hash) (s : State)
    (issuer : Account) (name symbol : List Nat) (decimals : Nat) : Except Err State :=
  if (s.currencies (hashMeta ⟨name, symbol, decimals, issuer⟩)).isSome then
    .error .CurrencyExisted
  else
    match s.ledger.reserve .Native issuer cfg.bondingAmount with
    | none => .error .LedgerError
    | some l =>
        .ok { s with ledger := l,
                     currencies := updFun s.currencies (hashMeta ⟨name, symbol, decimals, issuer⟩)
                       (some ⟨name, symbol, decimals, issuer⟩) }

/-- `remove_currency`: fail `CurrencyNotFound` / `NotCurrencyIssuer`,
remove the entry and unreserve `BondingAmount` native. -/
def remove_currency (cfg : Config) (s : State) (who : Account) (currencyHash : Hash) :
    Except Err State :=
  match s.currencies currencyHash with
  | none => .error .CurrencyNotFound
  | some metadata =>
    if who = metadata.issuer then
      .ok { s with currencies := updFun s.currencies currencyHash none,
                   ledger := s.ledger.unreserve .Native who cfg.bondingAmount }
    else .error .NotCurrencyIssuer

/-- `is_currency_accepted`: `Native` is accepted by everyone, a registered
currency iff its hash is in the merchant's acceptance list. -/
def is_currency_accepted (s : State) (merchant : Account) (currencyId : CurrencyId) : Bool :=
  match currencyId with
  | .Native => true
  | .Registered h => (s.acceptedCurrencies merchant).contains h

end Registry

/-! ## Identities (`pallets/identities/src/lib.rs`) -/

namespace Identities

/-- `2^32`: the modulus of Rust `u32` arithmetic (`Credibility = u32`). -/
def twoPow32 : Nat := 4294967296

/-- Wrapping `u32` subtraction (release-mode Rust `a - b`). For
`a, b < 2^32` this equals `a - b` when `b ≤ a` and wraps otherwise. -/
def sub32 (a b : Nat) : Nat := (a + (twoPow32 - b % twoPow32)) % twoPow32

inductive VerifyMethod where
  | Domain | Email | Evaluator | None
deriving DecidableEq, Repr

inductive IdentityType where
  | Individual | Organization
deriving DecidableEq, Repr

structure IdentityFieldInput where
  name : List Nat
  value : List Nat
  verifyMethod : VerifyMethod
deriving DecidableEq

structure IdentityField where
  name : List Nat
  value : List Nat
  verifyMethod : VerifyMethod
  isVerified : Bool
  verifyBy : Option Account
deriving DecidableEq

/-- `IdentityField::from_identity_field_input`. -/
def IdentityField.fromInput (input : IdentityFieldInput) : IdentityField :=
  ⟨input.name, input.value, input.verifyMethod, false, none⟩

structure IdentityReview where
  reviewer : Account
  contentDigest : Hash
deriving DecidableEq

structure Identity where
  name : List Nat
  identityType : IdentityType
  credibility : Nat
  data : List IdentityField
  reviews : List IdentityReview
deriving DecidableEq

/-- Storage of the identities pallet used by the claims. -/
structure State where
  identities : Account → Option Identity
  verifyDataRequests : Account → Option (List (Account × List Nat))

inductive Err where
  | IdentityExisted | IdentityNotFound | EvaluatorExisted | EvaluatorNotFound
  | AccessDenied | InvalidDomain | InvalidEmail | DataFieldNotFound
  | VerifyRequestNotFound | InvalidTranscript | CanOnlyReviewOnce
deriving DecidableEq, Repr

structure Config where
  initialCredibility : Nat
  maxCredibility : Nat

/-- Outcome of a Rust function that can also panic (an unguarded vector
index out of bounds aborts instead of returning `Err`). -/
inductive RustOutcome (ε σ : Type) where
  | panic : RustOutcome ε σ
  | error : ε → RustOutcome ε σ
  | ok : σ → RustOutcome ε σ

def RustOutcome.isPanic {ε σ : Type} : RustOutcome ε σ → Bool
  | .panic => true
  | _ => false

def RustOutcome.isOk {ε σ : Type} : RustOutcome ε σ → Bool
  | .ok _ => true
  | _ => false

/-- The byte scan of `_is_valid_domain`: walks the bytes with their
indices, rejecting a leading dot, a trailing dot and two adjacent dots,
collecting the dot positions (`dot_indexes`). `none` models an early
`return false`. -/
def domainScan (len : Nat) : Nat → List Nat → List Nat → Option (List Nat)
  | _, acc, [] => some acc
  | index, acc, b :: rest =>
    if index = 0 ∧ b = 46 then none
    else if index = len - 1 ∧ b = 46 then none
    else if b = 46 then
      if acc.getLast? = some (index - 1) then none
      else domainScan len (index + 1) (acc ++ [index]) rest
    else domainScan len (index + 1) acc rest

/-- `_is_valid_domain`: length ≥ 5, contains a dot, no leading/trailing
dot, no two adjacent dots (`.` is byte 46). -/
def isValidDomain (value : List Nat) : Bool :=
  if value.length < 5 then false
  else
    match domainScan value.length 0 [] value with
    | none => false
    | some dotIndexes => !dotIndexes.isEmpty

/-- `_is_valid_email`: length ≥ 5, split at the first `@` (byte 64); the
left part must not start with `@` and the right part must be a valid
domain. -/
def isValidEmail (value : List Nat) : Bool :=
  if value.length < 5 then false
  else
    match value.findIdx? (fun c => c = 64) with
    | none => false
    | some i =>
      let left := value.take (i + 1)
      let right := value.drop (i + 1)
      if left.head? = some 64 then false
      else isValidDomain right

/-- `_validate_data_field`: domain and email values are validated
syntactically; other verify methods pass. -/
def validateDataField (dataField : IdentityFieldInput) : Except Err Unit :=
  match dataField.verifyMethod with
  | .Domain => if isValidDomain dataField.value then .ok () else .error .InvalidDomain
  | .Email => if isValidEmail dataField.value then .ok () else .error .InvalidEmail
  | _ => .ok ()

/-- `_update_identity_data_field`: validate the field, look the identity
up, then write `identity.data[position] = ...` — an unguarded vector
index that panics when `position` is out of range. -/
def updateIdentityDataField (s : State) (requestor : Account) (position : Nat)
    (dataField : IdentityFieldInput) : RustOutcome Err State :=
  match validateDataField dataField with
  | .error e => .error e
  | .ok () =>
    match s.identities requestor with
    | none => .error .IdentityNotFound
    | some identity =>
      if position < identity.data.length then
        let newData := identity.data.set position (IdentityField.fromInput dataField)
        let ids := updFun s.identities requestor (some { identity with data := newData })
        .ok { s with identities := ids }
      else .panic

/-- The verification loop of `_verify_data`: for each `(position,
is_valid)` of the transcript with `is_valid = true`, set
`data[position].is_verified = true` and `verify_by = Some(evaluator)` —
both unguarded vector indexes (`none` models the panic). -/
def applyTranscript (evaluator : Account) (data : List IdentityField) :
    List (Nat × Bool) → Option (List IdentityField)
  | [] => some data
  | (position, isValid) :: rest =>
    if isValid then
      if h : position < data.length then
        applyTranscript evaluator
          (data.set position
            { data.get ⟨position, h⟩ with isVerified := true, verifyBy := some evaluator })
          rest
      else none
    else applyTranscript evaluator data rest

/-- `_verify_data`: find the pending request of `account` in the
evaluator's list, require the transcript positions to equal the request
positions exactly, apply the transcript to the identity data and remove
the request. -/
def verifyData (s : State) (evaluator account : Account)
    (transcript : List (Nat × Bool)) : RustOutcome Err State :=
  match s.identities account with
  | none => .error .IdentityNotFound
  | some identity =>
    match s.verifyDataRequests evaluator with
    | none => .error .VerifyRequestNotFound
    | some verifyRequests =>
      match verifyRequests.find? (fun r => r.1 = account) with
      | none => .error .VerifyRequestNotFound
      | some request =>
        if transcript.map (fun item => item.1) = request.2 then
          match applyTranscript evaluator identity.data transcript with
          | none => .panic
          | some newData =>
            .ok { s with
              verifyDataRequests := updFun s.verifyDataRequests evaluator
                (some (verifyRequests.filter (fun r => !(r.1 = account : Bool)))),
              identities := updFun s.identities account
                (some { identity with data := newData }) }
        else .error .InvalidTranscript

/-- `increase_credibility`: `if credibility + amount >= MaxCredibility`
clamp to `MaxCredibility`, else add (the `u32` sum wraps at `2^32`). -/
def increase_credibility (cfg : Config) (s : State) (accountId : Account) (amount : Nat) :
    Except Err State :=
  match s.identities accountId with
  | none => .error .IdentityNotFound
  | some identity =>
    let sum := (identity.credibility + amount) % twoPow32
    let newCred := if cfg.maxCredibility ≤ sum then cfg.maxCredibility else sum
    let ids := updFun s.identities accountId (some { identity with credibility := newCred })
    .ok { s with identities := ids }

/-- `decrease_credibility`: plain `credibility -= amount` — unchecked
`u32` subtraction, which wraps past zero. -/
def decrease_credibility (s : State) (accountId : Account) (amount : Nat) :
    Except Err State :=
  match s.identities accountId with
  | none => .error .IdentityNotFound
  | some identity =>
    let ids := updFun s.identities accountId
      (some { identity with credibility := sub32 identity.credibility amount })
    .ok { s with identities := ids }

/-- Credibility stored for an account, if any. -/
def credOf (s : State) (acc : Account) : Option Nat :=
  (s.identities acc).map Identity.credibility

end Identities

end Libra

namespace Libra

/-- C6 counterexample: with `MaxCredibility = 100` and an identity whose
credibility is 60, `decrease_credibility` by 61 wraps the `u32` to
`2^32 - 1 = 4294967295`, far above `MaxCredibility` and not zero —
refuting "lowers credibility to at worst zero (never below, and never
wraps or faults)" and the bound `credibility ≤ MaxCredibility`. -/
theorem decrease_credibility_wraps_below_zero :
    ∃ s1 : Identities.State,
      Identities.decrease_credibility
        ⟨fun a => if a = 1 then some ⟨[], .Individual, 60, [], []⟩ else none,
         fun _ => none⟩ 1 61 = .ok s1 ∧
      Identities.credOf s1 1 = some 4294967295 ∧ 100 < 4294967295 := by
  refine ⟨_, rfl, ?_, by decide⟩
  decide

/-- C6 amended: `increase_credibility` saturates at `MaxCredibility`
provided the `u32` sum does not overflow, and `decrease_credibility`
computes exact subtraction and preserves `credibility ≤ MaxCredibility`
provided the delta does not exceed the current credibility; a larger
delta wraps (see the counterexample). -/
theorem credibility_bounds_amended (cfg : Identities.Config) (s : Identities.State)
    (acc : Account) (d : Nat) (identity : Identities.Identity)
    (hid : s.identities acc = some identity)
    (hmax : identity.credibility ≤ cfg.maxCredibility)
    (hof : identity.credibility + d < Identities.twoPow32) :
    (∃ s1, Identities.increase_credibility cfg s acc d = .ok s1 ∧
      Identities.credOf s1 acc =
        some (min cfg.maxCredibility (identity.credibility + d))) ∧
    (d ≤ identity.credibility →
      ∃ s2, Identities.decrease_credibility s acc d = .ok s2 ∧
        Identities.credOf s2 acc = some (identity.credibility - d) ∧
        identity.credibility - d ≤ cfg.maxCredibility) := by
  constructor
  · refine ⟨_, by rw [Identities.increase_credibility, hid], ?_⟩
    simp only [Identities.credOf, updFun_same, Option.map_some']
    rw [Nat.mod_eq_of_lt hof]
    rcases Nat.le_total cfg.maxCredibility (identity.credibility + d) with h | h
    · rw [if_pos h, Nat.min_eq_left h]
    · rcases Nat.eq_or_lt_of_le h with h2 | h2
      · rw [h2]
        simp
      · rw [if_neg (Nat.not_le_of_lt h2), Nat.min_eq_right h]
  · intro hd
    refine ⟨_, by rw [Identities.decrease_credibility, hid], ?_, ?_⟩
    · simp only [Identities.credOf, updFun_same, Option.map_some']
      have : Identities.sub32 identity.credibility d = identity.credibility - d := by
        unfold Identities.sub32 Identities.twoPow32
        unfold Identities.twoPow32 at hof
        omega
      rw [this]
    · omega

/-- Witness for `credibility_bounds_amended`: MaxCredibility 100,
credibility 60, delta 50: increase clamps to 100, decrease yields 10. -/
theorem credibility_bounds_amended_witness :
    ∃ s1, Identities.increase_credibility ⟨60, 100⟩
      ⟨fun a => if a = 1 then some ⟨[], .Individual, 60, [], []⟩ else none,
       fun _ => none⟩ 1 50 = .ok s1 ∧
      Identities.credOf s1 1 = some 100 := by
  have h := (credibility_bounds_amended ⟨60, 100⟩
    ⟨fun a => if a = 1 then some ⟨[], .Individual, 60, [], []⟩ else none,
     fun _ => none⟩ 1 50 ⟨[], .Individual, 60, [], []⟩ (by decide) (by decide)
    (by decide)).1
  simpa using h

/-- `List.set` keeps the length; the transcript loop hits any
out-of-range valid position eventually. -/
theorem applyTranscript_oob (ev : Account) (p : Nat) :
    ∀ (ts : List (Nat × Bool)) (data : List Identities.IdentityField),
      (p, true) ∈ ts → data.length ≤ p →
      Identities.applyTranscript ev data ts = none := by
  intro ts
  induction ts with
  | nil => intro data hmem _; cases hmem
  | cons head rest ih =>
    intro data hmem hle
    obtain ⟨q, v⟩ := head
    rcases List.mem_cons.1 hmem with heq | hrest
    · obtain ⟨hq, hv⟩ := Prod.mk.injEq .. ▸ heq
      unfold Identities.applyTranscript
      rw [if_pos (by exact hv.symm)]
      rw [dif_neg (by omega)]
    · unfold Identities.applyTranscript
      by_cases hv : v = true
      · subst hv
        rw [if_pos rfl]
        by_cases hq : q < data.length
        · rw [dif_pos hq]
          exact ih _ hrest (by simpa using hle)
        · rw [dif_neg hq]
      · rw [if_neg hv]
        exact ih _ hrest hle

/-- When every transcript position is in range, the loop is total. -/
theorem applyTranscript_total (ev : Account) :
    ∀ (ts : List (Nat × Bool)) (data : List Identities.IdentityField),
      (∀ p b, (p, b) ∈ ts → p < data.length) →
      (Identities.applyTranscript ev data ts).isSome = true := by
  intro ts
  induction ts with
  | nil => intro data _; rfl
  | cons head rest ih =>
    intro data hall
    obtain ⟨q, v⟩ := head
    unfold Identities.applyTranscript
    by_cases hv : v = true
    · subst hv
      rw [if_pos rfl]
      have hq : q < data.length := hall q true (List.mem_cons_self _ _)
      rw [dif_pos hq]
      refine ih _ ?_
      intro p b hmem
      simpa using hall p b (List.mem_cons_of_mem _ hmem)
    · rw [if_neg hv]
      exact ih _ fun p b hmem => hall p b (List.mem_cons_of_mem _ hmem)

/-- C10 counterexample: the claim predicts that a `verify_data` call
whose matched pending request contains an out-of-range position panics;
but when the transcript marks that position `is_valid = false` the
unguarded index is never executed and the call succeeds.  Identity 2 has
one data field, evaluator 3 holds the request `(2, [5])`, and
`verify_data(3, 2, [(5, false)])` returns `Ok`. -/
theorem verify_data_oob_invalid_position_succeeds :
    (Identities.verifyData
      ⟨fun a => if a = 2 then some ⟨[], .Individual, 60, [⟨[], [], .None, false, none⟩], []⟩
        else none,
       fun e => if e = 3 then some [(2, [5])] else none⟩
      3 2 [(5, false)]).isOk = true ∧
    ¬ (5 : Nat) < 1 := by
  constructor
  · decide
  · decide

/-- C10 amended: the identity-field operations are not total in the
supplied position — `update_identity_data` with `position ≥ |data|`
panics on the unguarded index, and `verify_data` panics exactly when its
matched transcript marks an out-of-range position as valid
(`is_valid = true`); with every supplied position `< |data|` neither
operation panics. -/
theorem identity_indexing_totality_amended :
    (∀ (s : Identities.State) (requestor : Account) (pos : Nat)
       (f : Identities.IdentityFieldInput) (identity : Identities.Identity),
       Identities.validateDataField f = .ok () →
       s.identities requestor = some identity →
       identity.data.length ≤ pos →
       Identities.updateIdentityDataField s requestor pos f = .panic) ∧
    (∀ (s : Identities.State) (requestor : Account) (pos : Nat)
       (f : Identities.IdentityFieldInput) (identity : Identities.Identity),
       Identities.validateDataField f = .ok () →
       s.identities requestor = some identity →
       pos < identity.data.length →
       (Identities.updateIdentityDataField s requestor pos f).isOk = true) ∧
    (∀ (s : Identities.State) (evaluator account : Account)
       (transcript : List (Nat × Bool)) (identity : Identities.Identity)
       (reqs : List (Account × List Nat)) (request : Account × List Nat) (p : Nat),
       s.identities account = some identity →
       s.verifyDataRequests evaluator = some reqs →
       reqs.find? (fun r => r.1 = account) = some request →
       transcript.map (fun item => item.1) = request.2 →
       (p, true) ∈ transcript →
       identity.data.length ≤ p →
       Identities.verifyData s evaluator account transcript = .panic) ∧
    (∀ (s : Identities.State) (evaluator account : Account)
       (transcript : List (Nat × Bool)) (identity : Identities.Identity),
       s.identities account = some identity →
       (∀ p b, (p, b) ∈ transcript → p < identity.data.length) →
       (Identities.verifyData s evaluator account transcript).isPanic = false) := by
  refine ⟨?_, ?_, ?_, ?_⟩
  · intro s requestor pos f identity hval hid hle
    unfold Identities.updateIdentityDataField
    simp only [hval, hid]
    rw [if_neg (by omega)]
  · intro s requestor pos f identity hval hid hlt
    unfold Identities.updateIdentityDataField
    simp only [hval, hid]
    rw [if_pos hlt]
    rfl
  · intro s evaluator account transcript identity reqs request p hid hreq hfind htp hmem hle
    unfold Identities.verifyData
    simp only [hid, hreq, hfind]
    rw [if_pos htp]
    rw [applyTranscript_oob evaluator p transcript identity.data hmem hle]
  · intro s evaluator account transcript identity hid hall
    unfold Identities.verifyData
    simp only [hid]
    cases hreq : s.verifyDataRequests evaluator with
    | none => rfl
    | some reqs =>
      simp only []
      cases hfind : reqs.find? (fun r => decide (r.1 = account)) with
      | none => rfl
      | some request =>
        simp only []
        by_cases htp : transcript.map (fun item => item.1) = request.2
        · rw [if_pos htp]
          have htotal := applyTranscript_total evaluator transcript identity.data hall
          cases happ : Identities.applyTranscript evaluator identity.data transcript with
          | none => rw [happ] at htotal; simp at htotal
          | some newData => rfl
        · rw [if_neg htp]
          rfl

/-- Witness for `identity_indexing_totality_amended`: an identity with a
single data field; `update_identity_data` at position 3 panics. -/
theorem identity_indexing_totality_amended_witness :
    Identities.updateIdentityDataField
      ⟨fun a => if a = 1 then some ⟨[], .Individual, 60, [⟨[], [], .None, false, none⟩], []⟩
        else none,
       fun _ => none⟩ 1 3 ⟨[], [], .None⟩ = .panic :=
  identity_indexing_totality_amended.1 _ 1 3 ⟨[], [], .None⟩
    ⟨[], .Individual, 60, [⟨[], [], .None, false, none⟩], []⟩ rfl rfl (by decide)

end Libra

namespace Libra

/-- C9: a successful `create_currency` followed by a successful
`remove_currency` of the resulting currency id restores the issuer's free
and reserved native balances exactly. -/
theorem create_remove_currency_restores_balances
    (cfg : Registry.Config) (hashMeta : Registry.CurrencyMetadata → Hash)
    (s s1 s2 : Registry.State) (issuer : Account)
    (name symbol : List Nat) (decimals : Nat)
    (hcreate : Registry.create_currency cfg hashMeta s issuer name symbol decimals = .ok s1)
    (hremove : Registry.remove_currency cfg s1 issuer
      (hashMeta ⟨name, symbol, decimals, issuer⟩) = .ok s2) :
    s2.ledger.free .Native issuer = s.ledger.free .Native issuer ∧
    s2.ledger.reserved .Native issuer = s.ledger.reserved .Native issuer := by
  unfold Registry.create_currency at hcreate
  split at hcreate
  · simp at hcreate
  · split at hcreate
    · simp at hcreate
    · rename_i l hres
      injection hcreate with hs1
      unfold Ledger.reserve at hres
      split at hres
      · rename_i hfree
        injection hres with hl
        subst hl
        subst hs1
        unfold Registry.remove_currency at hremove
        simp only [updFun_same, if_true] at hremove
        injection hremove with hs2
        subst hs2
        unfold Ledger.unreserve
        simp only [updBal_same]
        constructor <;> simp [Nat.min_def] <;> omega
      · exact absurd hres (by simp)

/-- Witness for `create_remove_currency_restores_balances` at a concrete
state: bonding amount 50, issuer 1 starting with 100 free native. -/
theorem create_remove_currency_restores_balances_witness :
    ∃ s1 s2 : Registry.State,
      Registry.create_currency ⟨50⟩ (fun _ => 7)
        ⟨⟨fun _ _ => 100, fun _ _ => 0⟩, fun _ => none, fun _ => []⟩
        1 [] [] 0 = .ok s1 ∧
      Registry.remove_currency ⟨50⟩ s1 1 ((fun (_ : Registry.CurrencyMetadata) => (7 : Hash)) ⟨[], [], 0, 1⟩) = .ok s2 ∧
      s2.ledger.free .Native 1 = 100 ∧ s2.ledger.reserved .Native 1 = 0 := by
  refine ⟨_, _, rfl, rfl, ?_⟩
  have h := create_remove_currency_restores_balances ⟨50⟩ (fun _ => 7)
    ⟨⟨fun _ _ => 100, fun _ _ => 0⟩, fun _ => none, fun _ => []⟩ _ _ 1 [] [] 0 rfl rfl
  simpa using h

end Libra

namespace Libra

/-! ## Payment engine LRP (`pallets/lrp/src/lib.rs`) -/

namespace Lrp

inductive PaymentStatus where
  | Pending | Accepted | Rejected | Expired | FullFilled | Disputed | Cancelled | Completed
deriving DecidableEq, Repr

/-- The `Payment` struct of the LRP pallet. -/
structure Payment where
  id : Nat
  payer : Account
  payee : Account
  amount : Nat
  currencyId : CurrencyId
  description : List Nat
  status : PaymentStatus
  receiptHash : Hash
  createdAt : Moment
  updatedAt : Moment
  updatedBy : Account
deriving DecidableEq

/-- Storage of the LRP pallet plus the ledger it acts on. -/
structure State where
  ledger : Ledger
  latestPaymentId : Nat
  payments : Hash → Option Payment
  pendingPaymentHashes : List Hash
  fullFilledPaymentHashes : List Hash
  paymentsOwned : Account → List Hash

inductive Err where
  | Overflow | InsufficientBalance | PaymentNotFound | AccessDenied
  | InvalidStatusChange | PaymentNonexpired | UnacceptedCurrency
  | LedgerError
deriving DecidableEq, Repr

/-- Pallet constants of the LRP pallet. -/
structure Config where
  pendingPaymentWaitingTime : Nat
  fullFilledPaymentWaitingTime : Nat

/-- External collaborators of the LRP pallet: the currencies manager
acceptance check and the `T::Hashing::hash_of` instances. -/
structure Env where
  isCurrencyAccepted : Account → CurrencyId → Bool
  hashPayment : Payment → Hash
  hashReceipt : List Nat → Hash

/-- `u128::MAX`: `LatestPaymentId.checked_add(1)` overflows past it. -/
def u128Max : Nat := 340282366920938463463374607431768211455

/-- `do_create_payment`: allocate `id = LatestPaymentId + 1` (checked),
require free balance ≥ amount and the payee to accept the currency,
reserve `amount`, store the payment keyed by its hash, append to the
payer's owned list and to `PendingPaymentHashes`. -/
def do_create_payment (env : Env) (now : Moment) (s : State)
    (payer payee : Account) (amount : Nat) (currencyId : CurrencyId)
    (description receipt : List Nat) : Except Err State :=
  if u128Max ≤ s.latestPaymentId then .error .Overflow
  else if s.ledger.free currencyId payer < amount then .error .InsufficientBalance
  else if !(env.isCurrencyAccepted payee currencyId) then .error .UnacceptedCurrency
  else
    match s.ledger.reserve currencyId payer amount with
    | none => .error .LedgerError
    | some l =>
      let payment : Payment :=
        { id := s.latestPaymentId + 1, payer := payer, payee := payee, amount := amount,
          currencyId := currencyId, description := description, status := .Pending,
          receiptHash := env.hashReceipt receipt, createdAt := now, updatedAt := now,
          updatedBy := payer }
      let paymentHash := env.hashPayment payment
      .ok { s with
        ledger := l,
        latestPaymentId := s.latestPaymentId + 1,
        payments := updFun s.payments paymentHash (some payment),
        paymentsOwned := updFun s.paymentsOwned payer (s.paymentsOwned payer ++ [paymentHash]),
        pendingPaymentHashes := s.pendingPaymentHashes ++ [paymentHash] }

/-- `do_update_payment`: set `updated_at`, `updated_by` and `status` of a
stored payment. -/
def do_update_payment (now : Moment) (s : State) (updatedBy : Account)
    (paymentHash : Hash) (status : PaymentStatus) : Except Err State :=
  match s.payments paymentHash with
  | none => .error .PaymentNotFound
  | some payment =>
    let p2 := { payment with updatedAt := now, updatedBy := updatedBy, status := status }
    .ok { s with payments := updFun s.payments paymentHash (some p2) }

/-- `do_accept_payment`: payee-only, only from `Pending`; removes the
hash from `PendingPaymentHashes`. -/
def do_accept_payment (now : Moment) (s : State) (sender : Account) (paymentHash : Hash) :
    Except Err State :=
  match s.payments paymentHash with
  | none => .error .PaymentNotFound
  | some payment =>
    if sender ≠ payment.payee then .error .AccessDenied
    else if payment.status ≠ .Pending then .error .InvalidStatusChange
    else
      match do_update_payment now s sender paymentHash .Accepted with
      | .error e => .error e
      | .ok s1 =>
        let q := s1.pendingPaymentHashes.filter (fun h => h != paymentHash)
        .ok { s1 with pendingPaymentHashes := q }

/-- `do_reject_payment`: payee-only, only from `Pending`; unreserves and
removes the hash from `PendingPaymentHashes`. -/
def do_reject_payment (now : Moment) (s : State) (sender : Account) (paymentHash : Hash) :
    Except Err State :=
  match s.payments paymentHash with
  | none => .error .PaymentNotFound
  | some payment =>
    if sender ≠ payment.payee then .error .AccessDenied
    else if payment.status ≠ .Pending then .error .InvalidStatusChange
    else
      let l := s.ledger.unreserve payment.currencyId payment.payer payment.amount
      match do_update_payment now { s with ledger := l } sender paymentHash .Rejected with
      | .error e => .error e
      | .ok s1 =>
        let q := s1.pendingPaymentHashes.filter (fun h => h != paymentHash)
        .ok { s1 with pendingPaymentHashes := q }

/-- `do_expire_payment`: only for `Pending` payments; computes
`expired_time = updated_at + PendingPaymentWaitingTime` and returns
early with no change when `expired_time < now`; otherwise unreserves,
sets `Expired` and removes the hash from `PendingPaymentHashes`. -/
def do_expire_payment (cfg : Config) (now : Moment) (s : State) (paymentHash : Hash) :
    Except Err State :=
  match s.payments paymentHash with
  | none => .error .PaymentNotFound
  | some payment =>
    if payment.status ≠ .Pending then .error .InvalidStatusChange
    else if payment.updatedAt + cfg.pendingPaymentWaitingTime < now then .ok s
    else
      let l := s.ledger.unreserve payment.currencyId payment.payer payment.amount
      match do_update_payment now { s with ledger := l } payment.updatedBy paymentHash
        .Expired with
      | .error e => .error e
      | .ok s1 =>
        let q := s1.pendingPaymentHashes.filter (fun h => h != paymentHash)
        .ok { s1 with pendingPaymentHashes := q }

/-- `do_cancel_payment`: from `Pending` by the payer, from `Accepted` by
the payee; unreserves and sets `Cancelled`. The hash is not removed
from any queue. -/
def do_cancel_payment (now : Moment) (s : State) (sender : Account) (paymentHash : Hash) :
    Except Err State :=
  match s.payments paymentHash with
  | none => .error .PaymentNotFound
  | some payment =>
    match payment.status with
    | .Pending =>
      if sender ≠ payment.payer then .error .AccessDenied
      else
        let l := s.ledger.unreserve payment.currencyId payment.payer payment.amount
        do_update_payment now { s with ledger := l } sender paymentHash .Cancelled
    | .Accepted =>
      if sender ≠ payment.payee then .error .AccessDenied
      else
        let l := s.ledger.unreserve payment.currencyId payment.payer payment.amount
        do_update_payment now { s with ledger := l } sender paymentHash .Cancelled
    | _ => .error .InvalidStatusChange

/-- `do_full_fill_payment`: payee-only, only from `Accepted`; appends the
hash to `FullFilledPaymentHashes`. -/
def do_full_fill_payment (now : Moment) (s : State) (sender : Account) (paymentHash : Hash) :
    Except Err State :=
  match s.payments paymentHash with
  | none => .error .PaymentNotFound
  | some payment =>
    if sender ≠ payment.payee then .error .AccessDenied
    else if payment.status ≠ .Accepted then .error .InvalidStatusChange
    else
      match do_update_payment now s sender paymentHash .FullFilled with
      | .error e => .error e
      | .ok s1 =>
        .ok { s1 with
          fullFilledPaymentHashes := s1.fullFilledPaymentHashes ++ [paymentHash] }

/-- `do_auto_complete_full_filled_payments`: computes `expired_time =
updated_at + FullFilledPaymentWaitingTime` and returns early with no
change when `expired_time < now`; otherwise unreserves, transfers
payer→payee, sets `Completed` and removes the hash from
`FullFilledPaymentHashes` (no status check at all). -/
def do_auto_complete_full_filled_payments (cfg : Config) (now : Moment) (s : State)
    (paymentHash : Hash) : Except Err State :=
  match s.payments paymentHash with
  | none => .error .PaymentNotFound
  | some payment =>
    if payment.updatedAt + cfg.fullFilledPaymentWaitingTime < now then .ok s
    else
      let l := s.ledger.unreserve payment.currencyId payment.payer payment.amount
      match l.transfer payment.currencyId payment.payer payment.payee payment.amount with
      | none => .error .LedgerError
      | some l2 =>
        match do_update_payment now { s with ledger := l2 } payment.updatedBy paymentHash
          .Completed with
        | .error e => .error e
        | .ok s1 =>
          let q := s1.fullFilledPaymentHashes.filter (fun h => h != paymentHash)
          .ok { s1 with fullFilledPaymentHashes := q }

/-- `do_dispute_payment`: from `Accepted` or `FullFilled`, by payer or
payee; sets `Disputed`. The hash is not removed from any queue. -/
def do_dispute_payment (now : Moment) (s : State) (sender : Account) (paymentHash : Hash) :
    Except Err State :=
  match s.payments paymentHash with
  | none => .error .PaymentNotFound
  | some payment =>
    match payment.status with
    | .Accepted =>
      if sender = payment.payer ∨ sender = payment.payee then
        do_update_payment now s sender paymentHash .Disputed
      else .error .AccessDenied
    | .FullFilled =>
      if sender = payment.payer ∨ sender = payment.payee then
        do_update_payment now s sender paymentHash .Disputed
      else .error .AccessDenied
    | _ => .error .InvalidStatusChange

/-- `do_complete_payment`: payer-only, only from `FullFilled`;
unreserves, transfers payer→payee, sets `Completed` and removes the
hash from `FullFilledPaymentHashes`. -/
def do_complete_payment (now : Moment) (s : State) (sender : Account) (paymentHash : Hash) :
    Except Err State :=
  match s.payments paymentHash with
  | none => .error .PaymentNotFound
  | some payment =>
    if sender ≠ payment.payer then .error .AccessDenied
    else if payment.status ≠ .FullFilled then .error .InvalidStatusChange
    else
      let l := s.ledger.unreserve payment.currencyId payment.payer payment.amount
      match l.transfer payment.currencyId payment.payer payment.payee payment.amount with
      | none => .error .LedgerError
      | some l2 =>
        match do_update_payment now { s with ledger := l2 } sender paymentHash .Completed with
        | .error e => .error e
        | .ok s1 =>
          let q := s1.fullFilledPaymentHashes.filter (fun h => h != paymentHash)
          .ok { s1 with fullFilledPaymentHashes := q }

/-- The loop body of `evaluate_pending_payments`: run `do_expire_payment`
over the snapshot of the queue in order; the `?` on one entry aborts the
remaining entries, the state keeps the effects of the processed prefix. -/
def expireSweep (cfg : Config) (now : Moment) : State → List Hash → State × Option Err
  | s, [] => (s, none)
  | s, h :: t =>
    match do_expire_payment cfg now s h with
    | .error e => (s, some e)
    | .ok s1 => expireSweep cfg now s1 t

/-- `evaluate_pending_payments`: sweep the pending queue snapshot. -/
def evaluate_pending_payments (cfg : Config) (now : Moment) (s : State) :
    State × Option Err :=
  expireSweep cfg now s s.pendingPaymentHashes

/-- The loop body of `evaluate_full_filled_payments`. -/
def autoCompleteSweep (cfg : Config) (now : Moment) : State → List Hash → State × Option Err
  | s, [] => (s, none)
  | s, h :: t =>
    match do_auto_complete_full_filled_payments cfg now s h with
    | .error e => (s, some e)
    | .ok s1 => autoCompleteSweep cfg now s1 t

/-- `evaluate_full_filled_payments`: sweep the full-filled queue snapshot. -/
def evaluate_full_filled_payments (cfg : Config) (now : Moment) (s : State) :
    State × Option Err :=
  autoCompleteSweep cfg now s s.fullFilledPaymentHashes

/-- Status of a stored payment, if any. -/
def statusOf (s : State) (h : Hash) : Option PaymentStatus :=
  (s.payments h).map Payment.status

end Lrp

end Libra

namespace Libra

/-- A pending payment of 100 native from payer 10 to payee 20, created
and last updated at time 0, with the 100 still reserved. -/
def expPayment : Lrp.Payment :=
  ⟨1, 10, 20, 100, .Native, [], .Pending, 0, 0, 0, 10⟩

/-- Ledger for the deferred-sweep fixtures: payer 10 has 900 free and
100 reserved native, payee 20 has 1000 free. -/
def expLedger : Ledger :=
  ⟨fun c a => if c = .Native ∧ a = 10 then 900
    else if c = .Native ∧ a = 20 then 1000 else 0,
   fun c a => if c = .Native ∧ a = 10 then 100 else 0⟩

/-- LRP state holding `expPayment` in the pending queue. -/
def pendingFixture : Lrp.State :=
  ⟨expLedger, 1, fun h => if h = 1 then some expPayment else none, [1], [],
   fun a => if a = 10 then [1] else []⟩

/-- LRP state holding the same payment in status `FullFilled` in the
full-filled queue. -/
def fulfilledFixture : Lrp.State :=
  ⟨expLedger, 1,
   fun h => if h = 1 then some { expPayment with status := .FullFilled } else none,
   [], [1], fun a => if a = 10 then [1] else []⟩

/-- C1: with `PendingPaymentWaitingTime = 100` and a pending payment last
updated at 0, the sweep at `now = 200` (deadline passed, the claim
demands expiry) leaves the state completely unchanged, while at
`now = 50` (deadline not passed, the claim demands no change) it
unreserves, sets `Expired` and dequeues: the comparison in
`do_expire_payment` is inverted. -/
theorem expire_payment_deadline_inverted :
    (Lrp.do_expire_payment ⟨100, 100⟩ 200 pendingFixture 1 = .ok pendingFixture) ∧
    (∃ s1, Lrp.do_expire_payment ⟨100, 100⟩ 50 pendingFixture 1 = .ok s1 ∧
      Lrp.statusOf s1 1 = some .Expired ∧
      s1.pendingPaymentHashes = [] ∧
      s1.ledger.reserved .Native 10 = 0 ∧
      s1.ledger.free .Native 10 = 1000) := by
  refine ⟨rfl, _, rfl, ?_, ?_, ?_, ?_⟩ <;> decide

/-- C2: with `FulfilledPaymentWaitingTime = 100` and a fulfilled payment
last updated at 0, the sweep at `now = 200` (deadline passed, the claim
demands completion) leaves the state unchanged, while at `now = 50`
(deadline not passed, the claim demands no change) it unreserves,
transfers payer→payee, sets `Completed` and dequeues: the comparison in
`do_auto_complete_full_filled_payments` is inverted. -/
theorem auto_complete_deadline_inverted :
    (Lrp.do_auto_complete_full_filled_payments ⟨100, 100⟩ 200 fulfilledFixture 1 =
      .ok fulfilledFixture) ∧
    (∃ s1, Lrp.do_auto_complete_full_filled_payments ⟨100, 100⟩ 50 fulfilledFixture 1 =
        .ok s1 ∧
      Lrp.statusOf s1 1 = some .Completed ∧
      s1.fullFilledPaymentHashes = [] ∧
      s1.ledger.reserved .Native 10 = 0 ∧
      s1.ledger.free .Native 10 = 900 ∧
      s1.ledger.free .Native 20 = 1100) := by
  refine ⟨rfl, _, rfl, ?_, ?_, ?_, ?_, ?_⟩ <;> decide

/-- LRP environment for concrete traces: acceptance via the real
currencies-registry check over an empty registry (so `Native` is
accepted), payments hashed by their id. -/
def traceEnv : Lrp.Env :=
  ⟨Registry.is_currency_accepted ⟨⟨fun _ _ => 0, fun _ _ => 0⟩, fun _ => none, fun _ => []⟩,
   fun p => p.id, fun _ => 0⟩

/-- Initial LRP state: accounts 1 and 2 hold 1000 free native each. -/
def lrpInit : Lrp.State :=
  ⟨⟨fun c a => if c = .Native ∧ (a = 1 ∨ a = 2) then 1000 else 0, fun _ _ => 0⟩,
   0, fun _ => none, [], [], fun _ => []⟩

/-- C3: `cancel_payment` of a pending payment leaves its hash in
`PendingPaymentQueue` with status `Cancelled`, and `dispute_payment` of
a fulfilled payment leaves its hash in `FulfilledPaymentQueue` with
status `Disputed` — the queue-membership invariant fails (neither
function touches the queues). -/
theorem cancel_and_dispute_leave_stale_queue_entries :
    (∃ s1 s2,
      Lrp.do_create_payment traceEnv 0 lrpInit 1 2 100 .Native [] [] = .ok s1 ∧
      Lrp.do_cancel_payment 5 s1 1 1 = .ok s2 ∧
      Lrp.statusOf s2 1 = some .Cancelled ∧
      s2.pendingPaymentHashes = [1]) ∧
    (∃ s1 s2 s3 s4,
      Lrp.do_create_payment traceEnv 0 lrpInit 1 2 100 .Native [] [] = .ok s1 ∧
      Lrp.do_accept_payment 1 s1 2 1 = .ok s2 ∧
      Lrp.do_full_fill_payment 2 s2 2 1 = .ok s3 ∧
      Lrp.do_dispute_payment 3 s3 1 1 = .ok s4 ∧
      Lrp.statusOf s4 1 = some .Disputed ∧
      s4.fullFilledPaymentHashes = [1]) := by
  constructor
  · refine ⟨_, _, rfl, rfl, ?_, ?_⟩ <;> decide
  · refine ⟨_, _, _, _, rfl, rfl, rfl, rfl, ?_, ?_⟩ <;> decide

end Libra

namespace Libra

/-! ## Dispute resolution (`pallets/dispute-resolution/src/lib.rs`) -/

namespace Dispute

inductive Judgment where
  | ReleaseFundToPayer | ReleaseFundToPayee
deriving DecidableEq, Repr

inductive DisputeStatus where
  | Finalizing | Evaluating | Resolved
deriving DecidableEq, Repr

structure Argument where
  provider : Account
  contentHash : Hash
deriving DecidableEq

/-- The `Dispute` struct of the dispute-resolution pallet. -/
structure Dispute where
  status : DisputeStatus
  paymentHash : Hash
  expiredAt : Moment
  arguments : List Argument
  resolvers : List Account
  fee : Nat
  judgments : List (Account × Judgment)
  outcome : Judgment
deriving DecidableEq

/-- Storage of the dispute-resolution pallet plus the ledger it acts on. -/
structure State where
  ledger : Ledger
  disputes : Hash → Option Dispute
  finalizingDisputes : List Hash

inductive Err where
  | AccessDenied | DisputeNotAccepted | DisputeNotFound
  | ActionForOnlyFinalizingDispute | InsufficientBalance
  | PaymentNotFound | NoAnyActiveResolver | LedgerError
deriving DecidableEq, Repr

/-- Pallet constants of the dispute-resolution pallet. -/
structure Config where
  disputeFinalizingTime : Nat
  disputeFee : Nat

/-- External collaborators: the payment protocol (`get_payment`,
`can_dispute`), the resolver network (`get_resolver`) and
`T::Hashing::hash_of` for argument blobs. -/
structure Env where
  getPayment : Hash → Option (Account × Account × Nat × CurrencyId)
  canDispute : Hash → Bool
  getResolver : Hash → List Account → Except Err Account
  hashContent : List Nat → Hash

/-- `_compute_dispute_fee`: `DisputeFee * number_of_resolvers`. -/
def computeDisputeFee (cfg : Config) (numberOfResolvers : Nat) : Nat :=
  cfg.disputeFee * numberOfResolvers

/-- `_lock_resolvers_fee`: require free native ≥ fee and reserve it. -/
def lockResolversFee (s : State) (requestor : Account) (fee : Nat) : Except Err State :=
  if s.ledger.free .Native requestor < fee then .error .InsufficientBalance
  else
    match s.ledger.reserve .Native requestor fee with
    | none => .error .LedgerError
    | some l => .ok { s with ledger := l }

/-- `_create_dispute`: only for disputable payments, issuer must be the
payer; lock `DisputeFee × 1`, set `expired_at = now +
DisputeFinalizingTime`, initialize with one argument, no resolvers, no
judgments, `outcome = ReleaseFundToPayer`, `status = Finalizing`, and
enqueue. -/
def create_dispute (cfg : Config) (env : Env) (now : Moment) (s : State)
    (issuer : Account) (paymentHash : Hash) (argument : List Nat) : Except Err State :=
  if !(env.canDispute paymentHash) then .error .DisputeNotAccepted
  else
    match env.getPayment paymentHash with
    | none => .error .PaymentNotFound
    | some (payer, _payee, _, _) =>
      if issuer ≠ payer then .error .AccessDenied
      else
        match lockResolversFee s issuer (computeDisputeFee cfg 1) with
        | .error e => .error e
        | .ok s1 =>
          let dispute : Dispute :=
            { status := .Finalizing, paymentHash := paymentHash,
              expiredAt := now + cfg.disputeFinalizingTime,
              arguments := [⟨payer, env.hashContent argument⟩],
              resolvers := [], fee := computeDisputeFee cfg 1, judgments := [],
              outcome := .ReleaseFundToPayer }
          let disputes2 := updFun s1.disputes paymentHash (some dispute)
          let queue2 := s1.finalizingDisputes ++ [paymentHash]
          .ok { s1 with disputes := disputes2, finalizingDisputes := queue2 }

/-- The `for _i in 0..number_of_resolver` loop of `_fight_dispute`: each
draw passes the resolvers selected so far as the exclusion list and
appends the drawn resolver. -/
def drawResolvers (env : Env) (paymentHash : Hash) :
    Nat → List Account → Except Err (List Account)
  | 0, rs => .ok rs
  | Nat.succ k, rs =>
    match env.getResolver paymentHash rs with
    | .error e => .error e
    | .ok r => drawResolvers env paymentHash k (rs ++ [r])

/-- `_fight_dispute`: only the aggrieved party, only from `Finalizing`;
lock the cumulative `dispute.fee` from the caller, draw
`|resolvers| + 1` new resolvers, set `Evaluating`, append the caller's
argument and remove the dispute from `FinalizingDisputes`. -/
def fight_dispute (env : Env) (s : State) (who : Account) (paymentHash : Hash)
    (argument : List Nat) : Except Err State :=
  match s.disputes paymentHash with
  | none => .error .DisputeNotFound
  | some dispute =>
    match env.getPayment paymentHash with
    | none => .error .PaymentNotFound
    | some (payer, payee, _, _) =>
      if ¬((dispute.outcome = .ReleaseFundToPayee ∧ who = payer) ∨
           (dispute.outcome = .ReleaseFundToPayer ∧ who = payee)) then
        .error .AccessDenied
      else if dispute.status ≠ .Finalizing then .error .ActionForOnlyFinalizingDispute
      else
        match lockResolversFee s who dispute.fee with
        | .error e => .error e
        | .ok s1 =>
          match drawResolvers env paymentHash (dispute.resolvers.length + 1)
            dispute.resolvers with
          | .error e => .error e
          | .ok newResolvers =>
            let d2 := { dispute with
              status := .Evaluating,
              arguments := dispute.arguments ++ [⟨who, env.hashContent argument⟩],
              resolvers := newResolvers }
            let disputes2 := updFun s1.disputes paymentHash (some d2)
            let queue2 := s1.finalizingDisputes.filter (fun h => h != paymentHash)
            .ok { s1 with disputes := disputes2, finalizingDisputes := queue2 }

/-- Votes for the payee among the judgments (`transcript.release_to_payee`). -/
def countPayee (judgments : List (Account × Judgment)) : Nat :=
  (judgments.filter (fun i => i.2 = Judgment.ReleaseFundToPayee)).length

/-- Votes for the payer among the judgments (`transcript.release_to_payer`). -/
def countPayer (judgments : List (Account × Judgment)) : Nat :=
  (judgments.filter (fun i => i.2 = Judgment.ReleaseFundToPayer)).length

/-- `_propose_outcome`: only a selected resolver that has not judged yet
may append its judgment; when the judgments reach the resolver count,
tally (`ReleaseFundToPayee` iff strictly more payee votes), set
`Finalizing` and re-enqueue (the stored `expired_at` is never touched). -/
def propose_outcome (s : State) (who : Account) (paymentHash : Hash)
    (judgment : Judgment) : Except Err State :=
  match s.disputes paymentHash with
  | none => .error .DisputeNotFound
  | some dispute =>
    if who ∉ dispute.resolvers then .error .AccessDenied
    else if who ∈ dispute.judgments.map Prod.fst then .error .AccessDenied
    else
      let judgments := dispute.judgments ++ [(who, judgment)]
      if dispute.resolvers.length = judgments.length then
        let outcome := if countPayer judgments < countPayee judgments then
          Judgment.ReleaseFundToPayee else Judgment.ReleaseFundToPayer
        let d2 := { dispute with
          judgments := judgments, outcome := outcome, status := .Finalizing }
        let disputes2 := updFun s.disputes paymentHash (some d2)
        let queue2 := s.finalizingDisputes ++ [paymentHash]
        .ok { s with disputes := disputes2, finalizingDisputes := queue2 }
      else
        let d2 := { dispute with judgments := judgments }
        .ok { s with disputes := updFun s.disputes paymentHash (some d2) }

/-- `_distribute_resolvers_fee`: for each resolver, unreserve
`DisputeFee` from `who` and transfer it to the resolver; a failing
transfer aborts with the partial ledger effects kept (the sweep is not
an extrinsic, storage writes are immediate). -/
def distributeResolversFee (cfg : Config) (who : Account) :
    Ledger → List Account → Ledger × Option Err
  | l, [] => (l, none)
  | l, r :: rest =>
    let l1 := l.unreserve .Native who cfg.disputeFee
    match l1.transfer .Native who r cfg.disputeFee with
    | none => (l1, some .LedgerError)
    | some l2 => distributeResolversFee cfg who l2 rest

/-- The settlement of one due dispute in `_process_finalizing_disputes`:
release the escrow (and transfer it for a payee outcome), release the
loser-side fee stake, distribute `DisputeFee` per resolver from the
losing party. -/
def settle (cfg : Config) (dispute : Dispute) (payer payee : Account) (amount : Nat)
    (currencyId : CurrencyId) (l : Ledger) : Ledger × Option Err :=
  match dispute.outcome with
  | .ReleaseFundToPayee =>
    let l1 := l.unreserve currencyId payer amount
    match l1.transfer currencyId payer payee amount with
    | none => (l1, some .LedgerError)
    | some l2 =>
      let l3 := l2.unreserve .Native payee dispute.fee
      distributeResolversFee cfg payer l3 dispute.resolvers
  | .ReleaseFundToPayer =>
    let l1 := l.unreserve currencyId payer amount
    let l2 := l1.unreserve .Native payer dispute.fee
    distributeResolversFee cfg payee l2 dispute.resolvers

/-- Remove the resolved hashes from the queue (the loop after the sweep). -/
def removeResolved : State → List Hash → State
  | s, [] => s
  | s, h :: t =>
    removeResolved
      { s with finalizingDisputes := s.finalizingDisputes.filter (fun x => x != h) } t

/-- The loop of `_process_finalizing_disputes`: walk the queue snapshot
in order; a missing dispute or payment record propagates with `?`,
aborting the sweep with the effects of the processed prefix kept and no
queue entries removed; a dispute still inside its finalizing time
breaks the loop (the resolved ones collected so far are then removed). -/
def sweepGo (cfg : Config) (env : Env) (now : Moment) :
    State → List Hash → List Hash → State × Option Err
  | s, resolved, [] => (removeResolved s resolved, none)
  | s, resolved, h :: t =>
    match s.disputes h with
    | none => (s, some .DisputeNotFound)
    | some dispute =>
      match env.getPayment h with
      | none => (s, some .PaymentNotFound)
      | some (payer, payee, amount, currencyId) =>
        if dispute.expiredAt ≤ now then
          match settle cfg dispute payer payee amount currencyId s.ledger with
          | (l, some e) => ({ s with ledger := l }, some e)
          | (l, none) =>
            let d2 := { dispute with status := .Resolved }
            let s2 := { s with ledger := l, disputes := updFun s.disputes h (some d2) }
            sweepGo cfg env now s2 (resolved ++ [h]) t
        else (removeResolved s resolved, none)

/-- `_process_finalizing_disputes`: sweep the queue snapshot. -/
def process_finalizing_disputes (cfg : Config) (env : Env) (now : Moment) (s : State) :
    State × Option Err :=
  sweepGo cfg env now s [] s.finalizingDisputes

end Dispute

end Libra

namespace Libra

/-- C4: `propose_outcome` succeeds only for a selected resolver that has
not yet judged (a failing call returns `AccessDenied` and, being rolled
back, leaves the stored judgments unchanged); on success it appends the
judgment, never touches `expired_at`, and exactly when the judgments
reach the resolver count it tallies — outcome `ReleaseFundToPayee` iff
strictly more payee votes (tie ⇒ payer) — sets `Finalizing` and
re-enqueues the hash; otherwise status, outcome and queue are unchanged. -/
theorem propose_outcome_spec (s : Dispute.State) (who : Account) (ph : Hash)
    (j : Dispute.Judgment) (d : Dispute.Dispute)
    (hd : s.disputes ph = some d) :
    ((who ∉ d.resolvers ∨ who ∈ d.judgments.map Prod.fst) →
      Dispute.propose_outcome s who ph j = .error .AccessDenied) ∧
    (who ∈ d.resolvers → who ∉ d.judgments.map Prod.fst →
      ∃ s1 d1, Dispute.propose_outcome s who ph j = .ok s1 ∧
        s1.disputes ph = some d1 ∧
        d1.judgments = d.judgments ++ [(who, j)] ∧
        d1.expiredAt = d.expiredAt ∧
        (d.resolvers.length = d.judgments.length + 1 →
          d1.status = .Finalizing ∧
          s1.finalizingDisputes = s.finalizingDisputes ++ [ph] ∧
          (d1.outcome = .ReleaseFundToPayee ↔
            Dispute.countPayer (d.judgments ++ [(who, j)]) <
              Dispute.countPayee (d.judgments ++ [(who, j)]))) ∧
        (d.resolvers.length ≠ d.judgments.length + 1 →
          d1.status = d.status ∧ d1.outcome = d.outcome ∧
          s1.finalizingDisputes = s.finalizingDisputes)) := by
  constructor
  · intro hfail
    unfold Dispute.propose_outcome
    simp only [hd]
    by_cases hc : who ∈ d.resolvers
    · have h2 : who ∈ d.judgments.map Prod.fst := by
        rcases hfail with h1 | h2
        · exact absurd hc h1
        · exact h2
      rw [if_neg (by simp [hc]), if_pos h2]
    · rw [if_pos hc]
  · intro hres hjud
    unfold Dispute.propose_outcome
    simp only [hd]
    rw [if_neg (by simp [hres]), if_neg hjud]
    simp only [List.length_append, List.length_singleton]
    by_cases hfull : d.resolvers.length = d.judgments.length + 1
    · rw [if_pos hfull]
      refine ⟨_, _, rfl, updFun_same .., rfl, rfl, ?_, fun h => absurd hfull h⟩
      intro _
      refine ⟨rfl, rfl, ?_⟩
      by_cases hvotes : Dispute.countPayer (d.judgments ++ [(who, j)]) <
          Dispute.countPayee (d.judgments ++ [(who, j)])
      · simp only [if_pos hvotes]
        simp [hvotes]
      · simp only [if_neg hvotes]
        simp [hvotes]
    · rw [if_neg hfull]
      exact ⟨_, _, rfl, updFun_same .., rfl, rfl, fun h => absurd h hfull,
        fun _ => ⟨rfl, rfl, rfl⟩⟩

/-- Witness for `propose_outcome_spec`: dispute on payment 9 with
resolvers `[5, 6]` and one payee judgment by 5; resolver 6 proposing
payee completes the round: outcome `ReleaseFundToPayee`, status
`Finalizing`, `expired_at` 77 unchanged, hash re-enqueued. -/
theorem propose_outcome_spec_witness :
    ∃ s1 d1, Dispute.propose_outcome
      ⟨⟨fun _ _ => 0, fun _ _ => 0⟩,
       (fun h => if h = 9 then some ⟨.Evaluating, 9, 77, [], [5, 6], 200,
         [(5, .ReleaseFundToPayee)], .ReleaseFundToPayer⟩ else none), []⟩
      6 9 .ReleaseFundToPayee = .ok s1 ∧
      s1.disputes 9 = some d1 ∧ d1.status = .Finalizing ∧
      d1.outcome = .ReleaseFundToPayee ∧ d1.expiredAt = 77 ∧
      s1.finalizingDisputes = [9] := by
  obtain ⟨s1, d1, hok, hd1, hjud, hexp, hfull, _⟩ :=
    (propose_outcome_spec
      ⟨⟨fun _ _ => 0, fun _ _ => 0⟩,
       (fun h => if h = 9 then some ⟨.Evaluating, 9, 77, [], [5, 6], 200,
         [(5, .ReleaseFundToPayee)], .ReleaseFundToPayer⟩ else none), []⟩
      6 9 .ReleaseFundToPayee
      ⟨.Evaluating, 9, 77, [], [5, 6], 200, [(5, .ReleaseFundToPayee)],
        .ReleaseFundToPayer⟩ rfl).2 (by decide) (by decide)
  obtain ⟨hstat, hqueue, hout⟩ := hfull (by decide)
  exact ⟨s1, d1, hok, hd1, hstat, hout.mpr (by decide), hexp, by simpa using hqueue⟩

end Libra

namespace Libra

/-- The fight loop draws `k` resolvers, each excluding everything drawn
so far: the result extends the input by `k` accounts and, when the
selection respects the exclusion list, keeps it duplicate-free. -/
theorem drawResolvers_spec (env : Dispute.Env) (ph : Hash)
    (hexcl : ∀ h sel r, env.getResolver h sel = .ok r → r ∉ sel) :
    ∀ (k : Nat) (rs res : List Account),
      Dispute.drawResolvers env ph k rs = .ok res →
      ∃ ext, res = rs ++ ext ∧ ext.length = k ∧ (rs.Nodup → res.Nodup) := by
  intro k
  induction k with
  | zero =>
    intro rs res h
    injection h with h
    exact ⟨[], by simp [h.symm], rfl, fun hn => h ▸ hn⟩
  | succ n ih =>
    intro rs res h
    unfold Dispute.drawResolvers at h
    cases hr : env.getResolver ph rs with
    | error e => rw [hr] at h; cases h
    | ok r =>
      rw [hr] at h
      obtain ⟨ext, hres, hlen, hnd⟩ := ih (rs ++ [r]) res h
      refine ⟨[r] ++ ext, by simpa using hres, by simp [hlen], ?_⟩
      intro hrs
      apply hnd
      have hnotin := hexcl ph rs r hr
      simp [List.nodup_append, hrs, hnotin]

/-- C5: `fight_dispute` is accepted exactly for the aggrieved party of a
`Finalizing` dispute; on success it reserves exactly the cumulative
`dispute.fee` in native from the caller, appends `|resolvers| + 1` newly
drawn resolvers (each draw excluding all already-selected ones, so
distinctness is preserved), sets `Evaluating`, appends the caller's
argument and removes the hash from the finalizing queue. -/
theorem fight_dispute_spec (env : Dispute.Env) (s : Dispute.State) (who : Account)
    (ph : Hash) (arg : List Nat) (d : Dispute.Dispute)
    (payer payee : Account) (amount : Nat) (cid : CurrencyId)
    (hd : s.disputes ph = some d)
    (hp : env.getPayment ph = some (payer, payee, amount, cid))
    (hexcl : ∀ h sel r, env.getResolver h sel = .ok r → r ∉ sel) :
    (¬((d.outcome = .ReleaseFundToPayee ∧ who = payer) ∨
        (d.outcome = .ReleaseFundToPayer ∧ who = payee)) →
      Dispute.fight_dispute env s who ph arg = .error .AccessDenied) ∧
    (((d.outcome = .ReleaseFundToPayee ∧ who = payer) ∨
        (d.outcome = .ReleaseFundToPayer ∧ who = payee)) → d.status ≠ .Finalizing →
      Dispute.fight_dispute env s who ph arg = .error .ActionForOnlyFinalizingDispute) ∧
    (∀ s1, Dispute.fight_dispute env s who ph arg = .ok s1 →
      ((d.outcome = .ReleaseFundToPayee ∧ who = payer) ∨
        (d.outcome = .ReleaseFundToPayer ∧ who = payee)) ∧
      d.status = .Finalizing ∧
      d.fee ≤ s.ledger.free .Native who ∧
      s1.ledger.free .Native who = s.ledger.free .Native who - d.fee ∧
      s1.ledger.reserved .Native who = s.ledger.reserved .Native who + d.fee ∧
      ∃ d1 ext, s1.disputes ph = some d1 ∧
        d1.status = .Evaluating ∧
        d1.arguments = d.arguments ++ [⟨who, env.hashContent arg⟩] ∧
        d1.resolvers = d.resolvers ++ ext ∧
        ext.length = d.resolvers.length + 1 ∧
        (d.resolvers.Nodup → d1.resolvers.Nodup) ∧
        s1.finalizingDisputes = s.finalizingDisputes.filter (fun h => h != ph)) := by
  refine ⟨?_, ?_, ?_⟩
  · intro hfail
    unfold Dispute.fight_dispute
    simp only [hd, hp]
    rw [if_pos hfail]
  · intro hagg hstat
    unfold Dispute.fight_dispute
    simp only [hd, hp]
    rw [if_neg (by simp [hagg]), if_pos hstat]
  · intro s1 hok
    unfold Dispute.fight_dispute at hok
    simp only [hd, hp] at hok
    by_cases hagg : (d.outcome = .ReleaseFundToPayee ∧ who = payer) ∨
        (d.outcome = .ReleaseFundToPayer ∧ who = payee)
    · rw [if_neg (by simp [hagg])] at hok
      by_cases hstat : d.status = .Finalizing
      · rw [if_neg (by simp [hstat])] at hok
        refine ⟨hagg, hstat, ?_⟩
        unfold Dispute.lockResolversFee at hok
        by_cases hfree : s.ledger.free .Native who < d.fee
        · rw [if_pos hfree] at hok
          cases hok
        · rw [if_neg hfree] at hok
          unfold Ledger.reserve at hok
          rw [if_pos (Nat.le_of_not_lt hfree)] at hok
          simp only [] at hok
          cases hdraw : Dispute.drawResolvers env ph (d.resolvers.length + 1)
            d.resolvers with
          | error e => rw [hdraw] at hok; cases hok
          | ok newResolvers =>
            rw [hdraw] at hok
            obtain ⟨ext, hres, hlen, hnd⟩ :=
              drawResolvers_spec env ph hexcl _ _ _ hdraw
            injection hok with hs1
            subst hs1
            refine ⟨Nat.le_of_not_lt hfree, by simp, by simp, ?_⟩
            refine ⟨_, ext, updFun_same .., rfl, rfl, hres, hlen, ?_, rfl⟩
            intro hnodup
            exact hres ▸ hnd hnodup
      · rw [if_pos (by simp [hstat])] at hok
        cases hok
    · rw [if_pos hagg] at hok
      cases hok

end Libra

namespace Libra

/-- Payment 9 is between payer 1 and payee 2 for 100 native; the
resolver network always offers account 30 unless it is excluded. -/
def fightEnv : Dispute.Env :=
  ⟨fun h => if h = 9 then some (1, 2, 100, .Native) else none,
   fun _ => true,
   fun _ sel => if 30 ∈ sel then .error .NoAnyActiveResolver else .ok 30,
   fun _ => 0⟩

/-- A finalizing dispute on payment 9 with fee 100, no resolvers yet,
outcome `ReleaseFundToPayer`; the payee (account 2) holds 1000 free. -/
def fightState : Dispute.State :=
  ⟨⟨fun c a => if c = .Native ∧ a = 2 then 1000 else 0, fun _ _ => 0⟩,
   fun h => if h = 9 then some ⟨.Finalizing, 9, 50, [], [], 100, [], .ReleaseFundToPayer⟩
     else none,
   [9]⟩

/-- Witness for `fight_dispute_spec`: the payee fights, 100 native is
reserved, one resolver is drawn, the dispute turns `Evaluating` and the
hash leaves the finalizing queue. -/
theorem fight_dispute_spec_witness :
    ∃ s1, Dispute.fight_dispute fightEnv fightState 2 9 [] = .ok s1 ∧
      s1.ledger.reserved .Native 2 = 100 ∧ s1.ledger.free .Native 2 = 900 ∧
      ∃ d1, s1.disputes 9 = some d1 ∧ d1.status = .Evaluating ∧
        d1.resolvers.length = 1 ∧ s1.finalizingDisputes = [] := by
  obtain ⟨s1, hok⟩ : ∃ s1, Dispute.fight_dispute fightEnv fightState 2 9 [] = .ok s1 :=
    ⟨_, rfl⟩
  obtain ⟨-, -, -, hfree, hres, d1, ext, hd1, hstat, -, hresolvers, hlen, -, hqueue⟩ :=
    (fight_dispute_spec fightEnv fightState 2 9 []
      ⟨.Finalizing, 9, 50, [], [], 100, [], .ReleaseFundToPayer⟩ 1 2 100 .Native rfl rfl
      (by
        intro h sel r hr
        by_cases h30 : (30 : Account) ∈ sel
        · simp [fightEnv, h30] at hr
        · simp [fightEnv, h30] at hr
          subst hr
          exact h30)).2.2 s1 hok
  refine ⟨s1, hok, ?_, ?_, d1, hd1, hstat, ?_, ?_⟩
  · rw [hres]; decide
  · rw [hfree]; decide
  · rw [hresolvers]; simpa using hlen
  · rw [hqueue]; decide

end Libra

namespace Libra

/-- Payment 8 exists (payer 1, payee 2, 100 native); payment 7 does not. -/
def c8Env : Dispute.Env :=
  ⟨fun h => if h = 8 then some (1, 2, 100, .Native) else none, fun _ => true,
   fun _ _ => .error .NoAnyActiveResolver, fun _ => 0⟩

/-- Finalizing queue `[7, 8]` where dispute 7 is missing and dispute 8 is
past its deadline and ready to settle for the payer. -/
def c8State : Dispute.State :=
  ⟨⟨fun c a => if c = .Native ∧ a = 1 then 1000 else 0,
    fun c a => if c = .Native ∧ a = 1 then 200 else 0⟩,
   fun h => if h = 8 then some ⟨.Finalizing, 8, 10, [], [], 100, [], .ReleaseFundToPayer⟩
     else none,
   [7, 8]⟩

/-- C8 counterexample: the missing dispute 7 at the head of the queue
aborts the whole finalization sweep — dispute 8, although past its
deadline (`expired_at = 10 ≤ now = 100`), is left `Finalizing` and
enqueued; likewise a missing payment record at the head of the pending
queue aborts the LRP expiry sweep with the second entry untouched. -/
theorem sweep_aborts_instead_of_skipping :
    (Dispute.process_finalizing_disputes ⟨50, 100⟩ c8Env 100 c8State =
      (c8State, some .DisputeNotFound)) ∧
    ((c8State.disputes 8).map Dispute.Dispute.status = some .Finalizing) ∧
    (∃ d, c8State.disputes 8 = some d ∧ d.expiredAt ≤ 100) ∧
    (Lrp.evaluate_pending_payments ⟨100, 100⟩ 50
      { pendingFixture with pendingPaymentHashes := [3, 1] } =
      ({ pendingFixture with pendingPaymentHashes := [3, 1] },
        some .PaymentNotFound)) := by
  refine ⟨rfl, rfl, ⟨_, rfl, by decide⟩, rfl⟩

/-- C8 amended: a failure while processing one queue entry aborts the
deferred sweep at that entry instead of skipping it — when the first
entry's record is missing, the sweep returns the error immediately and
no entry of the queue (due or not) is processed — for both the dispute
finalization sweep and the pending-payment expiry sweep.  (The worker
only logs the error, so it is not surfaced, but the rest of the queue is
not processed in that sweep.) -/
theorem deferred_sweep_aborts_amended :
    (∀ (cfg : Dispute.Config) (env : Dispute.Env) (now : Moment) (s : Dispute.State)
       (h : Hash) (t : List Hash),
       s.finalizingDisputes = h :: t → s.disputes h = none →
       Dispute.process_finalizing_disputes cfg env now s = (s, some .DisputeNotFound)) ∧
    (∀ (cfg : Lrp.Config) (now : Moment) (s : Lrp.State) (h : Hash) (t : List Hash),
       s.pendingPaymentHashes = h :: t → s.payments h = none →
       Lrp.evaluate_pending_payments cfg now s = (s, some .PaymentNotFound)) := by
  constructor
  · intro cfg env now s h t hq hmiss
    unfold Dispute.process_finalizing_disputes
    rw [hq]
    unfold Dispute.sweepGo
    rw [hmiss]
  · intro cfg now s h t hq hmiss
    unfold Lrp.evaluate_pending_payments
    rw [hq]
    unfold Lrp.expireSweep Lrp.do_expire_payment
    rw [hmiss]

/-- Witness for `deferred_sweep_aborts_amended` on a one-entry queue
whose dispute record is missing. -/
theorem deferred_sweep_aborts_amended_witness :
    Dispute.process_finalizing_disputes ⟨50, 100⟩ c8Env 100
      { c8State with finalizingDisputes := [7] } =
      ({ c8State with finalizingDisputes := [7] }, some .DisputeNotFound) :=
  deferred_sweep_aborts_amended.1 ⟨50, 100⟩ c8Env 100
    { c8State with finalizingDisputes := [7] } 7 [] rfl rfl

end Libra

namespace Libra

/-! ## Resolvers network (`pallets/resolvers/src/lib.rs`) -/

namespace Resolvers

inductive ResolverStatus where
  | Candidacy | Active | Terminated
deriving DecidableEq, Repr

structure Delegation where
  delegator : Account
  amount : Nat
deriving DecidableEq

/-- The `Resolver` struct of the resolvers pallet. -/
structure Resolver where
  applicationDigest : Hash
  status : ResolverStatus
  selfStake : Nat
  delegations : List Delegation
  totalStake : Nat
  updatedAt : Moment
deriving DecidableEq

structure PendingFund where
  owner : Account
  amount : Nat
  releaseAt : Moment
deriving DecidableEq

/-- Storage of the resolvers pallet plus the ledger it acts on. -/
structure State where
  ledger : Ledger
  resolvers : Account → Option Resolver
  activeResolvers : List Account
  pendingFunds : List PendingFund

inductive Err where
  | InsufficientBalance | IdentityRequired | CredibilityTooLow | NotMeetMinimumSelfStake
  | ResolverNotFound | DelegationNotFound | InvalidAmount | NotAResolver
  | NoAnyActiveResolver | IdentityNotFound | LedgerError
deriving DecidableEq, Repr

/-- Pallet constants of the resolvers pallet. -/
structure Config where
  minimumSelfStake : Nat
  activationStakeAmount : Nat
  undelegateTime : Nat
  requiredCredibility : Nat

/-- External collaborators: the identities manager and the application
blob hash. -/
structure Env where
  hasIdentity : Account → Bool
  getCredibility : Account → Option Nat
  hashApplication : List Nat → Hash

/-- `_create_resolver` (`join_resolvers_network`): requires an identity,
credibility strictly above `RequiredCredibility`, `self_stake ≥
MinimumSelfStake` and enough free native; reserves the stake; starts in
`Candidacy` and becomes `Active` (joining `ActiveResolvers`) when the
stake reaches `ActivationStakeAmount`.  There is no existence check: a
second join overwrites the stored resolver. -/
def create_resolver (cfg : Config) (env : Env) (now : Moment) (s : State)
    (sender : Account) (application : List Nat) (selfStake : Nat) : Except Err State :=
  if !(env.hasIdentity sender) then .error .IdentityRequired
  else
    match env.getCredibility sender with
    | none => .error .IdentityNotFound
    | some credibility =>
      if credibility ≤ cfg.requiredCredibility then .error .CredibilityTooLow
      else if selfStake < cfg.minimumSelfStake then .error .NotMeetMinimumSelfStake
      else if s.ledger.free .Native sender < selfStake then .error .InsufficientBalance
      else
        match s.ledger.reserve .Native sender selfStake with
        | none => .error .LedgerError
        | some l =>
          if cfg.activationStakeAmount ≤ selfStake then
            let resolver : Resolver :=
              ⟨env.hashApplication application, .Active, selfStake, [], selfStake, now⟩
            .ok { s with ledger := l,
                         resolvers := updFun s.resolvers sender (some resolver),
                         activeResolvers := s.activeResolvers ++ [sender] }
          else
            let resolver : Resolver :=
              ⟨env.hashApplication application, .Candidacy, selfStake, [], selfStake, now⟩
            .ok { s with ledger := l,
                         resolvers := updFun s.resolvers sender (some resolver) }

/-- The delegation merge of `_delegate`: add to the first entry of the
delegator, or append a new entry. -/
def addToDelegation (delegations : List Delegation) (sender : Account) (amount : Nat) :
    List Delegation :=
  match delegations.findIdx? (fun dg => dg.delegator == sender) with
  | some p =>
    match delegations.get? p with
    | some dg => delegations.set p { dg with amount := dg.amount + amount }
    | none => delegations
  | none => delegations ++ [⟨sender, amount⟩]

/-- `_delegate`: requires free balance and an existing resolver (in any
status — there is no `Terminated` check); reserves `amount` from the
delegator, merges the delegation, adds to `total_stake`, and when the
new total reaches `ActivationStakeAmount` sets `Active` and appends to
`ActiveResolvers`. -/
def delegate (cfg : Config) (s : State) (sender resolverAccount : Account) (amount : Nat) :
    Except Err State :=
  if s.ledger.free .Native sender < amount then .error .InsufficientBalance
  else
    match s.resolvers resolverAccount with
    | none => .error .ResolverNotFound
    | some resolver =>
      match s.ledger.reserve .Native sender amount with
      | none => .error .LedgerError
      | some l =>
        let delegations := addToDelegation resolver.delegations sender amount
        let totalStake := resolver.totalStake + amount
        if cfg.activationStakeAmount ≤ totalStake then
          let r2 := { resolver with
            delegations := delegations, totalStake := totalStake, status := .Active }
          .ok { s with ledger := l,
                       resolvers := updFun s.resolvers resolverAccount (some r2),
                       activeResolvers := s.activeResolvers ++ [resolverAccount] }
        else
          let r2 := { resolver with delegations := delegations, totalStake := totalStake }
          .ok { s with ledger := l,
                       resolvers := updFun s.resolvers resolverAccount (some r2) }

/-- `_undelegate`: requires an existing delegation with a sufficient
amount; decrements it and `total_stake`, enqueues a `PendingFund` with
`release_at = now + UndelegateTime`, drops to `Candidacy` (leaving
`ActiveResolvers`) when the total falls below `ActivationStakeAmount`,
and drops zero-amount delegation entries. -/
def undelegate (cfg : Config) (now : Moment) (s : State) (sender resolverAccount : Account)
    (amount : Nat) : Except Err State :=
  match s.resolvers resolverAccount with
  | none => .error .ResolverNotFound
  | some resolver =>
    match resolver.delegations.findIdx? (fun dg => dg.delegator == sender) with
    | none => .error .DelegationNotFound
    | some p =>
      match resolver.delegations.get? p with
      | none => .error .DelegationNotFound
      | some dg =>
        if dg.amount < amount then .error .InvalidAmount
        else
          let delegations1 :=
            (resolver.delegations.set p { dg with amount := dg.amount - amount }).filter
              (fun d2 => 0 < d2.amount)
          let totalStake := resolver.totalStake - amount
          let pendingFunds := s.pendingFunds ++ [⟨sender, amount, now + cfg.undelegateTime⟩]
          if totalStake < cfg.activationStakeAmount then
            let r2 := { resolver with
              status := .Candidacy, delegations := delegations1, totalStake := totalStake }
            let actives2 := s.activeResolvers.filter (fun a => a != resolverAccount)
            .ok { s with resolvers := updFun s.resolvers resolverAccount (some r2),
                         activeResolvers := actives2, pendingFunds := pendingFunds }
          else
            let r2 := { resolver with delegations := delegations1, totalStake := totalStake }
            .ok { s with resolvers := updFun s.resolvers resolverAccount (some r2),
                         pendingFunds := pendingFunds }

/-- `_terminate_resolver` (`resign`, and the credibility-drop path of
`decrease_credibility`): schedule `PendingFund`s for the self stake and
every delegation, zero the stakes, set `Terminated` and leave
`ActiveResolvers`. -/
def terminate_resolver (cfg : Config) (now : Moment) (s : State)
    (resolverAccount : Account) : Except Err State :=
  match s.resolvers resolverAccount with
  | none => .error .NotAResolver
  | some resolver =>
    let releaseAt := now + cfg.undelegateTime
    let pendingFunds := s.pendingFunds ++ [⟨resolverAccount, resolver.selfStake, releaseAt⟩] ++
      resolver.delegations.map (fun dg => ⟨dg.delegator, dg.amount, releaseAt⟩)
    let r2 := { resolver with
      totalStake := 0, selfStake := 0, delegations := [], status := .Terminated }
    let actives2 := s.activeResolvers.filter (fun a => a != resolverAccount)
    .ok { s with resolvers := updFun s.resolvers resolverAccount (some r2),
                 activeResolvers := actives2, pendingFunds := pendingFunds }

/-- The `retain` of `_release_pending_funds`: scan in order, unreserve
and drop every fund with `now ≥ release_at`. -/
def releaseGo (now : Moment) : Ledger → List PendingFund → Ledger × List PendingFund
  | l, [] => (l, [])
  | l, f :: t =>
    if f.releaseAt ≤ now then
      releaseGo now (l.unreserve .Native f.owner f.amount) t
    else
      let (l2, rest) := releaseGo now l t
      (l2, f :: rest)

/-- `_release_pending_funds`: the per-block pending-fund sweep. -/
def release_pending_funds (now : Moment) (s : State) : State :=
  { s with ledger := (releaseGo now s.ledger s.pendingFunds).1,
           pendingFunds := (releaseGo now s.ledger s.pendingFunds).2 }

/-- One user-visible mutation of the resolvers pallet state
(`join_resolvers_network`, `delegate`, `undelegate`, `resign` — also the
effect of a credibility-drop termination — and the deferred
pending-fund sweep). -/
inductive Step (cfg : Config) (env : Env) : State → State → Prop where
  | join : ∀ now s sender application selfStake s2,
      create_resolver cfg env now s sender application selfStake = .ok s2 →
      Step cfg env s s2
  | dele : ∀ s sender resolverAccount amount s2,
      delegate cfg s sender resolverAccount amount = .ok s2 → Step cfg env s s2
  | undele : ∀ now s sender resolverAccount amount s2,
      undelegate cfg now s sender resolverAccount amount = .ok s2 → Step cfg env s s2
  | resign : ∀ now s sender s2,
      terminate_resolver cfg now s sender = .ok s2 → Step cfg env s s2
  | sweep : ∀ now s, Step cfg env s (release_pending_funds now s)

/-- A genesis resolvers state: no resolvers, empty active list. -/
def Init (s : State) : Prop :=
  (∀ a, s.resolvers a = none) ∧ s.activeResolvers = []

/-- Reachability by any sequence of resolver operations. -/
def Reachable (cfg : Config) (env : Env) (s0 s : State) : Prop :=
  Relation.ReflTransGen (Step cfg env) s0 s

/-- The provable part of the resolver-status invariant: the status/stake
biconditional, and `Active` implies membership in `ActiveResolvers`. -/
def StatusInv (cfg : Config) (s : State) : Prop :=
  ∀ a r, s.resolvers a = some r →
    ((r.status = .Active ↔
        cfg.activationStakeAmount ≤ r.totalStake ∧ r.status ≠ .Terminated) ∧
     (r.status = .Active → a ∈ s.activeResolvers))

end Resolvers

end Libra

namespace Libra

/-- A genesis state satisfies the status invariant vacuously. -/
theorem statusInv_init (cfg : Resolvers.Config) (s : Resolvers.State)
    (h : Resolvers.Init s) : Resolvers.StatusInv cfg s := by
  intro a r hr
  rw [h.1 a] at hr
  cases hr

/-- `join_resolvers_network` preserves the status invariant. -/
theorem statusInv_join (cfg : Resolvers.Config) (env : Resolvers.Env) (now : Moment)
    (s : Resolvers.State) (sender : Account) (application : List Nat) (selfStake : Nat)
    (s2 : Resolvers.State) (hs : Resolvers.StatusInv cfg s)
    (hok : Resolvers.create_resolver cfg env now s sender application selfStake = .ok s2) :
    Resolvers.StatusInv cfg s2 := by
  unfold Resolvers.create_resolver at hok
  split at hok
  · cases hok
  · split at hok
    · cases hok
    · split at hok
      · cases hok
      · split at hok
        · cases hok
        · split at hok
          · cases hok
          · split at hok
            · cases hok
            · simp only [] at hok
              split at hok
              · rename_i hact
                injection hok with h
                subst h
                intro a r har
                by_cases haeq : a = sender
                · subst haeq
                  simp only [updFun_same] at har
                  injection har with har
                  subst har
                  simp [Resolvers.StatusInv, hact]
                · simp only [updFun_other _ _ _ _ haeq] at har
                  refine ⟨(hs a r har).1, fun hact2 => ?_⟩
                  exact List.mem_append_left _ ((hs a r har).2 hact2)
              · rename_i hact
                injection hok with h
                subst h
                intro a r har
                by_cases haeq : a = sender
                · subst haeq
                  simp only [updFun_same] at har
                  injection har with har
                  subst har
                  simp [hact]
                · simp only [updFun_other _ _ _ _ haeq] at har
                  exact hs a r har

/-- `delegate` preserves the status invariant (also when it re-activates
a `Terminated` resolver: the resulting state is again consistent). -/
theorem statusInv_delegate (cfg : Resolvers.Config) (s : Resolvers.State)
    (sender resolverAccount : Account) (amount : Nat) (s2 : Resolvers.State)
    (hs : Resolvers.StatusInv cfg s)
    (hok : Resolvers.delegate cfg s sender resolverAccount amount = .ok s2) :
    Resolvers.StatusInv cfg s2 := by
  unfold Resolvers.delegate at hok
  split at hok
  · cases hok
  · split at hok
    · cases hok
    · rename_i resolver hres
      split at hok
      · cases hok
      · simp only [] at hok
        split at hok
        · rename_i hact
          injection hok with h
          subst h
          intro a r har
          by_cases haeq : a = resolverAccount
          · subst haeq
            simp only [updFun_same] at har
            injection har with har
            subst har
            simp [hact]
          · simp only [updFun_other _ _ _ _ haeq] at har
            refine ⟨(hs a r har).1, fun hact2 => ?_⟩
            exact List.mem_append_left _ ((hs a r har).2 hact2)
        · rename_i hact
          injection hok with h
          subst h
          intro a r har
          by_cases haeq : a = resolverAccount
          · subst haeq
            simp only [updFun_same] at har
            injection har with har
            subst har
            have hold := (hs a resolver hres).1
            have hnot : resolver.status ≠ .Active := by
              intro h2
              exact hact (Nat.le_trans (hold.mp h2).1 (Nat.le_add_right _ _))
            refine ⟨⟨fun h2 => absurd h2 hnot, fun h2 => absurd h2.1 hact⟩,
              fun h2 => absurd h2 hnot⟩
          · simp only [updFun_other _ _ _ _ haeq] at har
            exact hs a r har

/-- `undelegate` preserves the status invariant. -/
theorem statusInv_undelegate (cfg : Resolvers.Config) (now : Moment)
    (s : Resolvers.State) (sender resolverAccount : Account) (amount : Nat)
    (s2 : Resolvers.State) (hs : Resolvers.StatusInv cfg s)
    (hok : Resolvers.undelegate cfg now s sender resolverAccount amount = .ok s2) :
    Resolvers.StatusInv cfg s2 := by
  unfold Resolvers.undelegate at hok
  split at hok
  · cases hok
  · rename_i resolver hres
    split at hok
    · cases hok
    · split at hok
      · cases hok
      · rename_i dg hdg
        split at hok
        · cases hok
        · simp only [] at hok
          split at hok
          · rename_i hbelow
            injection hok with h
            subst h
            intro a r har
            by_cases haeq : a = resolverAccount
            · subst haeq
              simp only [updFun_same] at har
              injection har with har
              subst har
              simp [Nat.not_le_of_lt hbelow]
            · simp only [updFun_other _ _ _ _ haeq] at har
              refine ⟨(hs a r har).1, fun hact2 => ?_⟩
              have hmem := (hs a r har).2 hact2
              simp only [List.mem_filter, bne_iff_ne]
              exact ⟨hmem, by simpa using haeq⟩
          · rename_i hbelow
            injection hok with h
            subst h
            intro a r har
            by_cases haeq : a = resolverAccount
            · subst haeq
              simp only [updFun_same] at har
              injection har with har
              subst har
              have hold := (hs a resolver hres).1
              have hge : cfg.activationStakeAmount ≤ resolver.totalStake - amount :=
                Nat.le_of_not_lt hbelow
              refine ⟨⟨fun h2 => ⟨hge, (hold.mp h2).2⟩,
                fun h2 => hold.mpr ⟨Nat.le_trans hge (Nat.sub_le _ _), h2.2⟩⟩,
                fun h2 => (hs a resolver hres).2 h2⟩
            · simp only [updFun_other _ _ _ _ haeq] at har
              exact hs a r har

/-- `resign` / credibility-drop termination preserves the invariant. -/
theorem statusInv_terminate (cfg : Resolvers.Config) (now : Moment)
    (s : Resolvers.State) (resolverAccount : Account) (s2 : Resolvers.State)
    (hs : Resolvers.StatusInv cfg s)
    (hok : Resolvers.terminate_resolver cfg now s resolverAccount = .ok s2) :
    Resolvers.StatusInv cfg s2 := by
  unfold Resolvers.terminate_resolver at hok
  split at hok
  · cases hok
  · rename_i resolver hres
    injection hok with h
    subst h
    intro a r har
    by_cases haeq : a = resolverAccount
    · subst haeq
      simp only [updFun_same] at har
      injection har with har
      subst har
      simp
    · simp only [updFun_other _ _ _ _ haeq] at har
      refine ⟨(hs a r har).1, fun hact2 => ?_⟩
      have hmem := (hs a r har).2 hact2
      simp only [List.mem_filter, bne_iff_ne]
      exact ⟨hmem, by simpa using haeq⟩

/-- The pending-fund sweep leaves resolvers and the active list alone. -/
theorem statusInv_sweep (cfg : Resolvers.Config) (now : Moment) (s : Resolvers.State)
    (hs : Resolvers.StatusInv cfg s) :
    Resolvers.StatusInv cfg (Resolvers.release_pending_funds now s) := by
  intro a r har
  exact hs a r har

/-- Every step of the resolvers pallet preserves the status invariant. -/
theorem statusInv_step (cfg : Resolvers.Config) (env : Resolvers.Env)
    (s s2 : Resolvers.State) (hs : Resolvers.StatusInv cfg s)
    (hstep : Resolvers.Step cfg env s s2) : Resolvers.StatusInv cfg s2 := by
  cases hstep with
  | join now s sender application selfStake s2 hok =>
    exact statusInv_join cfg env now s sender application selfStake s2 hs hok
  | dele s sender resolverAccount amount s2 hok =>
    exact statusInv_delegate cfg s sender resolverAccount amount s2 hs hok
  | undele now s sender resolverAccount amount s2 hok =>
    exact statusInv_undelegate cfg now s sender resolverAccount amount s2 hs hok
  | resign now s sender s2 hok =>
    exact statusInv_terminate cfg now s sender s2 hs hok
  | sweep now s => exact statusInv_sweep cfg now s hs

end Libra

namespace Libra

/-- Resolver-network constants: MinimumSelfStake 10, ActivationStake 100,
UndelegateTime 5, RequiredCredibility 30. -/
def rCfg : Resolvers.Config := ⟨10, 100, 5, 30⟩

/-- Every account has an identity of credibility 60. -/
def rEnv : Resolvers.Env := ⟨fun _ => true, fun _ => some 60, fun _ => 0⟩

/-- Genesis resolvers state: accounts 1 and 2 hold 1000 free native. -/
def rInit : Resolvers.State :=
  ⟨⟨fun c a => if c = .Native ∧ (a = 1 ∨ a = 2) then 1000 else 0, fun _ _ => 0⟩,
   fun _ => none, [], []⟩

/-- C7 counterexample: termination is not irreversible and the
`ActiveResolvers ⇔ Active` biconditional fails.  (a) account 1 joins
with the activation stake, resigns (`Terminated`), and a delegation of
the activation stake by account 2 returns it to `Active` and to
`ActiveResolvers` — `_delegate` never checks for `Terminated`.  (b) a
second `join_resolvers_network` below the activation stake overwrites an
`Active` resolver with a `Candidacy` one while its account stays in
`ActiveResolvers`. -/
theorem terminated_resolver_reactivated :
    (∃ s1 s2 s3,
      Resolvers.create_resolver rCfg rEnv 0 rInit 1 [] 100 = .ok s1 ∧
      Resolvers.terminate_resolver rCfg 1 s1 1 = .ok s2 ∧
      Resolvers.delegate rCfg s2 2 1 100 = .ok s3 ∧
      (s2.resolvers 1).map Resolvers.Resolver.status = some .Terminated ∧
      (s3.resolvers 1).map Resolvers.Resolver.status = some .Active ∧
      1 ∈ s3.activeResolvers) ∧
    (∃ s1 s2,
      Resolvers.create_resolver rCfg rEnv 0 rInit 1 [] 100 = .ok s1 ∧
      Resolvers.create_resolver rCfg rEnv 1 s1 1 [] 10 = .ok s2 ∧
      (s2.resolvers 1).map Resolvers.Resolver.status = some .Candidacy ∧
      1 ∈ s2.activeResolvers) := by
  constructor
  · refine ⟨_, _, _, rfl, rfl, rfl, ?_, ?_, ?_⟩ <;> decide
  · refine ⟨_, _, rfl, rfl, ?_, ?_⟩ <;> decide

/-- C7 amended: in every state reachable by resolver operations from a
genesis state, `status = Active ⇔ total_stake ≥ ActivationStakeAmount ∧
status ≠ Terminated`, and every `Active` resolver is in
`ActiveResolvers`; the converse membership direction and the
irreversibility of termination do not hold (see the counterexample). -/
theorem resolver_status_invariant_amended (cfg : Resolvers.Config) (env : Resolvers.Env)
    (s0 s : Resolvers.State) (hinit : Resolvers.Init s0)
    (hr : Resolvers.Reachable cfg env s0 s) : Resolvers.StatusInv cfg s := by
  induction hr with
  | refl => exact statusInv_init cfg s0 hinit
  | tail hr2 hstep ih => exact statusInv_step cfg env _ _ ih hstep

/-- Witness for `resolver_status_invariant_amended`: the invariant after
a single activating join from genesis. -/
theorem resolver_status_invariant_amended_witness :
    ∃ s1, Resolvers.create_resolver rCfg rEnv 0 rInit 1 [] 100 = .ok s1 ∧
      Resolvers.StatusInv rCfg s1 := by
  obtain ⟨s1, hok⟩ : ∃ s1, Resolvers.create_resolver rCfg rEnv 0 rInit 1 [] 100 = .ok s1 :=
    ⟨_, rfl⟩
  exact ⟨s1, hok, resolver_status_invariant_amended rCfg rEnv rInit s1
    ⟨fun _ => rfl, rfl⟩
    (Relation.ReflTransGen.single (Resolvers.Step.join 0 rInit 1 [] 100 s1 hok))⟩

end Libra

namespace Libra

namespace Resolvers

/-- `ResolversNetwork::get_resolver`: filter `ActiveResolvers` by the
exclusion list, fail `NoAnyActiveResolver` when empty, and pick the
index `sum_of_beacon_bytes mod available_count` (`randomOutput` stands
for the opaque beacon bytes seeded with the payment hash). -/
def get_resolver (randomOutput : List Nat) (s : State) (selected : List Account) :
    Except Err Account :=
  let available := s.activeResolvers.filter (fun id => !(selected.contains id))
  if h : available = [] then .error .NoAnyActiveResolver
  else
    .ok (available.get ⟨randomOutput.sum % available.length,
      Nat.mod_lt _ (List.length_pos.2 h)⟩)

/-- `get_resolver` returns an active resolver outside the exclusion
list — the property the fight loop of the dispute engine relies on. -/
theorem get_resolver_excludes (randomOutput : List Nat) (s : State)
    (selected : List Account) (r : Account)
    (h : get_resolver randomOutput s selected = .ok r) :
    r ∈ s.activeResolvers ∧ r ∉ selected := by
  unfold get_resolver at h
  simp only [] at h
  split at h
  · cases h
  · injection h with h
    have hmem : r ∈ s.activeResolvers.filter (fun id => !(selected.contains id)) :=
      h ▸ List.get_mem _ _ _
    have := List.mem_filter.1 hmem
    refine ⟨this.1, ?_⟩
    simpa using this.2

end Resolvers

end Libra
